import Mathlib

/-!
Verification of go-continuous-fuzz against its specification.

This file gives a shallow embedding, in Lean 4, of the pure computational
core of the go-continuous-fuzz orchestrator: the per-target fuzz budget
(`utils.go`), the crash fingerprint (`utils.go` / `github.go`), the fuzz
output stream processor (`parser.go` generation that produces `fuzzCrash`
values), the task queue (`worker.go`), the report store (`report.go`:
`addToMaster`, `updateTarget`), corpus minimization and coverage
measurement (`corpus.go`), and the cycle controller (`scheduler.go`).

Effectful Go code (filesystem, containers, S3, GitHub) is modelled by
passing the environment explicitly: the filesystem is an association list
from paths to contents, the fuzz engine and the per-cycle signals are
oracle parameters, and fallible functions return `Except`.  Machine
integers are modelled as `Nat`/`Int` with explicit `% 2 ^ 32` where Go
performs 32-bit wraparound (SHA-256).
-/

/-! ## Per-target fuzz budget (`utils.go`, `calculateFuzzSeconds`) -/

/-- Embedding of `calculateFuzzSeconds` from `utils.go`.  A `time.Duration`
is an integer count of nanoseconds; `int(syncFrequency.Seconds())` is
modelled as the exact truncation `ns / 10^9` (for a positive whole number
of seconds this is what the Go float conversion produces, float
granularity being outside the embedding).  The final
`time.Duration(perTargetSeconds) * time.Second` multiplies by `10^9`. -/
def calculateFuzzSeconds (syncFrequencyNs numWorkers totalTargets : Nat) :
    Nat :=
  let tasksPerWorker := (totalTargets + numWorkers - 1) / numWorkers
  let perTargetSeconds := (syncFrequencyNs / 1000000000) / tasksPerWorker
  perTargetSeconds * 1000000000

/-- Spec-side ceiling division, written from the spec's words
`ceil(total_targets / num_workers)`. -/
def ceilDivSpec (t w : Nat) : Nat :=
  if t % w = 0 then t / w else t / w + 1

theorem tasksPerWorker_eq_ceilDivSpec (t w : Nat) (hw : 1 ≤ w) :
    (t + w - 1) / w = ceilDivSpec t w := by
  have hw0 : 0 < w := hw
  obtain ⟨q, r, hr, ht⟩ : ∃ q r, r < w ∧ t = w * q + r :=
    ⟨t / w, t % w, Nat.mod_lt _ hw0, (Nat.div_add_mod t w).symm⟩
  subst ht
  have hmod : (w * q + r) % w = r := by
    rw [Nat.mul_add_mod, Nat.mod_eq_of_lt hr]
  have hdiv : (w * q + r) / w = q := by
    rw [Nat.mul_add_div hw0, Nat.div_eq_of_lt hr, Nat.add_zero]
  rcases Nat.eq_zero_or_pos r with h0 | hpos
  · subst h0
    have e1 : w * q + 0 + w - 1 = w * q + (w - 1) := by omega
    rw [e1, Nat.mul_add_div hw0, Nat.div_eq_of_lt (by omega : w - 1 < w)]
    have hq : w * q / w = q := Nat.mul_div_cancel_left q hw0
    simp [ceilDivSpec, hmod, hdiv, hq]
  · have e1 : w * q + r + w - 1 = w * q + (r + w - 1) := by omega
    have h1 : (r + w - 1) / w = 1 :=
      Nat.div_eq_of_lt_le (by omega) (by omega)
    rw [e1, Nat.mul_add_div hw0, h1]
    have hne : r ≠ 0 := by omega
    simp [ceilDivSpec, hmod, hdiv, hne]

/-! ## SHA-256 (model of Go's `crypto/sha256`, used by `ComputeSHA256Short`) -/

/-- 32-bit right rotation. -/
def rotr32 (n x : Nat) : Nat :=
  ((x >>> n) ||| (x <<< (32 - n))) % 2 ^ 32

def bigSigma0 (x : Nat) : Nat := rotr32 2 x ^^^ rotr32 13 x ^^^ rotr32 22 x

def bigSigma1 (x : Nat) : Nat := rotr32 6 x ^^^ rotr32 11 x ^^^ rotr32 25 x

def smallSigma0 (x : Nat) : Nat := rotr32 7 x ^^^ rotr32 18 x ^^^ (x >>> 3)

def smallSigma1 (x : Nat) : Nat := rotr32 17 x ^^^ rotr32 19 x ^^^ (x >>> 10)

/-- SHA-256 choice function; `¬x` over 32 bits is `x ^^^ (2^32 - 1)`. -/
def sha2ch (x y z : Nat) : Nat := (x &&& y) ^^^ ((x ^^^ (2 ^ 32 - 1)) &&& z)

def sha2maj (x y z : Nat) : Nat := (x &&& y) ^^^ (x &&& z) ^^^ (y &&& z)

/-- The 64 SHA-256 round constants. -/
def sha256K : List Nat :=
  [1116352408, 1899447441, 3049323471, 3921009573,
   961987163, 1508970993, 2453635748, 2870763221,
   3624381080, 310598401, 607225278, 1426881987,
   1925078388, 2162078206, 2614888103, 3248222580,
   3835390401, 4022224774, 264347078, 604807628,
   770255983, 1249150122, 1555081692, 1996064986,
   2554220882, 2821834349, 2952996808, 3210313671,
   3336571891, 3584528711, 113926993, 338241895,
   666307205, 773529912, 1294757372, 1396182291,
   1695183700, 1986661051, 2177026350, 2456956037,
   2730485921, 2820302411, 3259730800, 3345764771,
   3516065817, 3600352804, 4094571909, 275423344,
   430227734, 506948616, 659060556, 883997877,
   958139571, 1322822218, 1537002063, 1747873779,
   1955562222, 2024104815, 2227730452, 2361852424,
   2428436474, 2756734187, 3204031479, 3329325298]

/-- The SHA-256 initial hash value. -/
def sha256H0 : List Nat :=
  [1779033703, 3144134277, 1013904242, 2773480762,
   1359893119, 2600822924, 528734635, 1541459225]

/-- Big-endian 8-byte encoding. -/
def be64 (n : Nat) : List Nat :=
  [(n >>> 56) % 256, (n >>> 48) % 256, (n >>> 40) % 256, (n >>> 32) % 256,
   (n >>> 24) % 256, (n >>> 16) % 256, (n >>> 8) % 256, n % 256]

/-- Big-endian 4-byte encoding. -/
def be32 (n : Nat) : List Nat :=
  [(n >>> 24) % 256, (n >>> 16) % 256, (n >>> 8) % 256, n % 256]

/-- SHA-256 padding: `0x80`, zeros up to 56 mod 64, then the bit length. -/
def sha256Pad (msg : List Nat) : List Nat :=
  let l := msg.length
  let zeros := (119 - l % 64) % 64
  msg ++ 0x80 :: List.replicate zeros 0 ++ be64 (l * 8)

/-- Big-endian 32-bit words of a byte list. -/
def toWords : List Nat → List Nat
  | b0 :: b1 :: b2 :: b3 :: rest =>
      (((b0 * 256 + b1) * 256 + b2) * 256 + b3) :: toWords rest
  | _ => []

/-- Split a byte list into 64-byte blocks (fuel-based structural recursion
so that the kernel can evaluate it; the fuel `l.length` always suffices). -/
def sha256BlocksGo : Nat → List Nat → List (List Nat)
  | 0, _ => []
  | _, [] => []
  | fuel + 1, b :: bs => ((b :: bs).take 64) :: sha256BlocksGo fuel ((b :: bs).drop 64)

def sha256Blocks (l : List Nat) : List (List Nat) :=
  sha256BlocksGo l.length l

/-- One step of the message-schedule extension: appends
`σ1(w[i-2]) + w[i-7] + σ0(w[i-15]) + w[i-16] mod 2^32`. -/
def scheduleStep (w : List Nat) : List Nat :=
  let n := w.length
  let a := w.getD (n - 16) 0
  let b := w.getD (n - 15) 0
  let c := w.getD (n - 7) 0
  let d := w.getD (n - 2) 0
  w ++ [(smallSigma1 d + c + smallSigma0 b + a) % 2 ^ 32]

/-- One SHA-256 compression round on the 8-word state. -/
def compressStep (state : List Nat) (kw : Nat × Nat) : List Nat :=
  match state with
  | [a, b, c, d, e, f, g, h] =>
      let t1 := (h + bigSigma1 e + sha2ch e f g + kw.1 + kw.2) % 2 ^ 32
      let t2 := (bigSigma0 a + sha2maj a b c) % 2 ^ 32
      [(t1 + t2) % 2 ^ 32, a, b, c, (d + t1) % 2 ^ 32, e, f, g]
  | s => s

/-- Process one 64-byte block. -/
def sha256ProcessBlock (h : List Nat) (block : List Nat) : List Nat :=
  let w := Nat.repeat scheduleStep 48 (toWords block)
  let s := (sha256K.zip w).foldl compressStep h
  (h.zip s).map (fun p => (p.1 + p.2) % 2 ^ 32)

/-- SHA-256 digest (32 bytes) of a byte list. -/
def sha256 (msg : List Nat) : List Nat :=
  (((sha256Blocks (sha256Pad msg)).foldl sha256ProcessBlock sha256H0).map
    be32).flatten

/-- Lowercase hex digit. -/
def hexDigit (n : Nat) : Char :=
  if n < 10 then Char.ofNat (48 + n) else Char.ofNat (87 + n)

/-- Model of Go's `hex.EncodeToString`, as a character list. -/
def hexChars (bs : List Nat) : List Char :=
  bs.flatMap fun b => [hexDigit (b / 16), hexDigit (b % 16)]

/-- UTF-8 bytes of one code point (model of Go's `[]byte(string)` at the
character level). -/
def utf8Bytes (c : Char) : List Nat :=
  let n := c.toNat
  if n < 128 then [n]
  else if n < 2048 then [192 + n / 64, 128 + n % 64]
  else if n < 65536 then
    [224 + n / 4096, 128 + n / 64 % 64, 128 + n % 64]
  else
    [240 + n / 262144, 128 + n / 4096 % 64, 128 + n / 64 % 64, 128 + n % 64]

/-- Byte list of a Go string. -/
def strBytes (s : String) : List Nat := s.data.flatMap utf8Bytes

/-- Embedding of `ComputeSHA256Short` from `utils.go`: hex digest of the
SHA-256 of the error data, sliced to the first 16 bytes (`[:16]`); on the
all-ASCII hex string this byte slice is the first 16 characters. -/
def ComputeSHA256Short (errorData : String) : String :=
  String.mk ((hexChars (sha256 (strBytes errorData))).take 16)

/-- Embedding of the issue-title computation of `handleCrash` in
`github.go`: `"[fuzz/<hash>] Fuzzing crash in <pkg>/<target>"`. -/
def issueTitle (pkg target failureFileAndLine : String) : String :=
  "[fuzz/" ++ ComputeSHA256Short failureFileAndLine ++ "] Fuzzing crash in "
    ++ pkg ++ "/" ++ target


/-! ## Fuzz output stream processor (`parser.go`, `fuzzCrash` generation) -/

/-- RE2's `\s` character class `[\t\n\f\r ]` (Go `regexp`). -/
def goIsSpace (c : Char) : Bool :=
  c == ' ' || c == '\t' || c == '\n' || c == '\x0c' || c == '\r'

def goIsDigit (c : Char) : Bool := '0' ≤ c && c ≤ '9'

/-- `[0-9a-f]`. -/
def goIsHexLower (c : Char) : Bool := goIsDigit c || ('a' ≤ c && c ≤ 'f')

/-- Substring test on character lists, modelling `strings.Contains`. -/
def goContainsChars (sub : List Char) : List Char → Bool
  | [] => sub.isEmpty
  | c :: rest => sub.isPrefixOf (c :: rest) || goContainsChars sub rest

def goContains (s sub : String) : Bool := goContainsChars sub.data s.data

/-- The literal part of `fuzzFailureRegex` in `parser.go`. -/
def failingInputLit : List Char := "Failing input written to testdata/fuzz/".data

/-- Completes a `fuzzFailureRegex` match right after one occurrence of the
literal: `[^/]+` is forced to be the maximal non-slash run (a shorter split
would put a non-slash character where the `/` must match), then `/`, then
the greedy nonempty `[0-9a-f]+` run. -/
def matchFailureAt (cs : List Char) : Option (String × String) :=
  let t := cs.takeWhile (fun c => c != '/')
  match cs.drop t.length with
  | '/' :: rest =>
      let h := rest.takeWhile goIsHexLower
      if t.isEmpty || h.isEmpty then none
      else some (String.mk t, String.mk h)
  | _ => none

/-- Leftmost-first match of `fuzzFailureRegex` over the characters of a
line, as Go's `FindStringSubmatch` produces it. -/
def findFailureMatch : List Char → Option (String × String)
  | [] => none
  | c :: rest =>
      match
        (if failingInputLit.isPrefixOf (c :: rest) then
          matchFailureAt ((c :: rest).drop failingInputLit.length)
        else none) with
      | some r => some r
      | none => findFailureMatch rest

/-- Embedding of `parseFailureLine` from `parser.go`: extracts the fuzz
target name and the hexadecimal input id, or `("", "")` when the regex
does not match. -/
def parseFailureLine (line : String) : String × String :=
  (findFailureMatch line.data).getD ("", "")

/-- Rightmost completion of `\.go:[0-9]+` (the greedy `.*` of
`fuzzFileLineRegex` makes the `file` capture end at the rightmost `.go`
followed by `:` and a digit).  Returns the characters of the capture from
the current position and the maximal digit run. -/
def rightmostGoLine : List Char → Option (List Char × List Char)
  | [] => none
  | c :: rest =>
      match rightmostGoLine rest with
      | some (f, d) => some (c :: f, d)
      | none =>
          if ".go:".data.isPrefixOf (c :: rest) then
            let ds := ((c :: rest).drop 4).takeWhile goIsDigit
            if ds.isEmpty then none else some (".go".data, ds)
          else none

/-- Embedding of `parseFileAndLine` from `parser.go`: Go's leftmost-first
match of `\s*(?P<file>.*\.go):(?P<line>[0-9]+)`; the leading `\s*` takes
the maximal whitespace prefix and the `file` capture runs from there to
the rightmost `.go:` followed by a digit.  Returns `file ++ ":" ++ line`
or `""` when there is no match. -/
def parseFileAndLine (errorLine : String) : String :=
  let body := errorLine.data.dropWhile goIsSpace
  match rightmostGoLine body with
  | none => ""
  | some (f, d) => String.mk f ++ ":" ++ String.mk d

/-- A filesystem fragment: paths with readable contents.  A path that is
absent cannot be read (`os.ReadFile` fails). -/
abbrev FileSys := List (String × String)

/-- `filepath.Join` on clean relative components. -/
def joinPath (a b : String) : String := a ++ "/" ++ b

/-- Embedding of `readFailingInput` from the `fuzzCrash`-producing parser
generation: reads `corpusDir/<target>/<id>`; any read failure (a missing
file included) is returned as an error. -/
def readFailingInput (fs : FileSys) (corpusDir target id : String) :
    Except String String :=
  let failingInputPath := joinPath target id
  let inputPath := joinPath corpusDir failingInputPath
  match fs.lookup inputPath with
  | some data => .ok data
  | none => .error ("failed to read " ++ inputPath)

/-- Embedding of `fuzzCrash` from `parser.go`. -/
structure fuzzCrash where
  errorLogs : String
  failingInput : String
  failureFileAndLine : String
deriving DecidableEq, Repr

/-- Embedding of the line loop of `processFailureLines`: folds over the
lines after the failure marker carrying
`(failingLog, failingInputString, failingFileLine)` and aborts with an
error when reading a referenced failing input fails. -/
def processFailureLinesGo (fs : FileSys) (corpusDir : String) :
    List String → String → String → String → Except String fuzzCrash
  | [], failingLog, failingInputString, failingFileLine =>
      .ok ⟨failingLog, failingInputString, failingFileLine⟩
  | line :: rest, failingLog, failingInputString, failingFileLine =>
      let failingLog' := failingLog ++ line ++ "\n"
      let failingFileLine' :=
        if failingFileLine = "" then parseFileAndLine line
        else failingFileLine
      if failingInputString ≠ "" then
        processFailureLinesGo fs corpusDir rest failingLog'
          failingInputString failingFileLine'
      else
        let ti := parseFailureLine line
        if ti.1 = "" ∨ ti.2 = "" then
          processFailureLinesGo fs corpusDir rest failingLog' ""
            failingFileLine'
        else
          match readFailingInput fs corpusDir ti.1 ti.2 with
          | .error e => .error ("processing fuzz stream: " ++ e)
          | .ok data =>
              processFailureLinesGo fs corpusDir rest failingLog' data
                failingFileLine'

/-- Embedding of `scanUntilFailure`: drops lines up to and including the
first line containing `--- FAIL:`; `none` when no failure marker occurs. -/
def scanUntilFailure : List String → Option (List String)
  | [] => none
  | line :: rest =>
      if goContains line "--- FAIL:" then some rest
      else scanUntilFailure rest

/-- Embedding of `processFuzzStream` (the `fuzzCrash`-producing parser
generation): `ok none` when the stream has no failure marker, otherwise
the outcome of processing the failure lines. -/
def processFuzzStream (fs : FileSys) (corpusDir : String)
    (stream : List String) : Except String (Option fuzzCrash) :=
  match scanUntilFailure stream with
  | none => .ok none
  | some rest =>
      match processFailureLinesGo fs corpusDir rest "" "" "" with
      | .error e => .error e
      | .ok fc => .ok (some fc)

/-! ## Theorems for claims C1, C2, C3 -/

/-- **C1**: for every sync frequency of `s` whole seconds (`s` arbitrary),
`numWorkers ≥ 1` and `totalTargets ≥ 1`, the per-target fuzz budget
computed by `calculateFuzzSeconds` equals
`floor(s / ceil(totalTargets / numWorkers))` seconds (durations are in
nanoseconds, hence the `* 10^9`). -/
theorem c1_perTargetBudget (s w t : Nat) (hw : 1 ≤ w) (ht : 1 ≤ t) :
    calculateFuzzSeconds (s * 1000000000) w t =
      s / ceilDivSpec t w * 1000000000 := by
  have h9 : (0 : Nat) < 1000000000 := by norm_num
  unfold calculateFuzzSeconds
  rw [tasksPerWorker_eq_ceilDivSpec t w hw, Nat.mul_div_cancel _ h9]

/-- Witness for **C1**, scenario S1: `W = 7`, `T = 43`,
`S = 3h37m53s = 13073 s` gives `31m7s = 1867 s`. -/
theorem c1_perTargetBudget_witness :
    calculateFuzzSeconds (13073 * 1000000000) 7 43 =
      13073 / ceilDivSpec 43 7 * 1000000000 ∧
    13073 / ceilDivSpec 43 7 = 1867 :=
  ⟨c1_perTargetBudget 13073 7 43 (by decide) (by decide), by decide⟩

/-- **C2**: the crash fingerprint is the first 16 hex characters of the
SHA-256 of the failure site (deterministically: `ComputeSHA256Short` is a
function of its argument); on `"stringutils_test.go:17" ++ "\n"` it is
`"cfec419a119b189c"`, and the issue title built by `handleCrash` for
package `stringutils`, target `FuzzReverseString` is the stated string. -/
theorem c2_fingerprint_sha256 :
    ComputeSHA256Short "stringutils_test.go:17\n" = "cfec419a119b189c" ∧
    issueTitle "stringutils" "FuzzReverseString" "stringutils_test.go:17\n" =
      "[fuzz/cfec419a119b189c] Fuzzing crash in stringutils/FuzzReverseString" ∧
    ∀ s : String, ComputeSHA256Short s =
      String.mk ((hexChars (sha256 (strBytes s))).take 16) :=
  ⟨by decide, by decide, fun _ => rfl⟩

/-- A fuzz-output stream in which a crash is detected and a failing input
is referenced. -/
def c3Stream : List String :=
  ["--- FAIL: FuzzFoo (0.01s)",
   "    Failing input written to testdata/fuzz/FuzzFoo/771e938e4458e983"]

/-- The lines of `c3Stream` after the failure marker. -/
def c3Rest : List String :=
  ["    Failing input written to testdata/fuzz/FuzzFoo/771e938e4458e983"]

/-- **C3 counterexample**: on a stream in which a crash is detected
(`--- FAIL:` occurs) but the referenced failing-input file cannot be read
(empty filesystem fragment), the stream processor returns an error — it
does not record the input as absent and continue, contradicting the
claim. -/
theorem c3_counterexample :
    processFuzzStream [] "corpus" c3Stream =
      .error
        "processing fuzz stream: failed to read corpus/FuzzFoo/771e938e4458e983"
      ∧ (c3Stream.any fun l => goContains l "--- FAIL:") = true :=
  ⟨rfl, by decide⟩

theorem processFailureLinesGo_emptyFs_error (corpusDir : String) :
    ∀ (rest : List String) (log fileLine : String),
      (rest.any fun l =>
        (parseFailureLine l).1 != "" && (parseFailureLine l).2 != "") = true →
      ∃ e, processFailureLinesGo [] corpusDir rest log "" fileLine =
        .error e := by
  intro rest
  induction rest with
  | nil => intro log fileLine h; simp at h
  | cons line rest ih =>
      intro log fileLine h
      by_cases hc : (parseFailureLine line).1 = "" ∨ (parseFailureLine line).2 = ""
      · have hrest : (rest.any fun l =>
            (parseFailureLine l).1 != "" && (parseFailureLine l).2 != "") = true := by
          simp only [List.any_cons, Bool.or_eq_true] at h
          rcases h with h | h
          · exfalso
            rcases hc with hc | hc <;> simp [hc] at h
          · exact h
        obtain ⟨e, he⟩ := ih (log ++ line ++ "\n")
          (if fileLine = "" then parseFileAndLine line else fileLine) hrest
        refine ⟨e, ?_⟩
        simp only [processFailureLinesGo]
        rw [if_neg (fun hne : ("" : String) ≠ "" => hne rfl), if_pos hc]
        exact he
      · push_neg at hc
        refine ⟨"processing fuzz stream: " ++ ("failed to read " ++
          joinPath corpusDir (joinPath (parseFailureLine line).1
            (parseFailureLine line).2)), ?_⟩
        simp only [processFailureLinesGo]
        rw [if_neg (fun hne : ("" : String) ≠ "" => hne rfl),
          if_neg (by simp only [not_or]; exact ⟨hc.1, hc.2⟩)]
        rfl

/-- **C3 amended**: for every fuzz-output stream in which a crash is
detected and some subsequent line references a failing input, while the
corpus base directory yields no readable file (empty filesystem
fragment), the stream processor surfaces the read failure as an error; it
does not treat the input as absent. -/
theorem c3_amended_readFailure_isError (corpusDir : String)
    (stream rest : List String)
    (hscan : scanUntilFailure stream = some rest)
    (href : (rest.any fun l =>
      (parseFailureLine l).1 != "" && (parseFailureLine l).2 != "") = true) :
    ∃ e, processFuzzStream [] corpusDir stream = .error e := by
  obtain ⟨e, he⟩ := processFailureLinesGo_emptyFs_error corpusDir rest "" "" href
  exact ⟨e, by simp [processFuzzStream, hscan, he]⟩

/-- Witness for **C3 amended** at the concrete stream `c3Stream`. -/
theorem c3_amended_readFailure_isError_witness :
    scanUntilFailure c3Stream = some c3Rest ∧
    (c3Rest.any fun l =>
      (parseFailureLine l).1 != "" && (parseFailureLine l).2 != "") = true ∧
    ∃ e, processFuzzStream [] "corpus" c3Stream = .error e :=
  ⟨by decide, by decide,
    c3_amended_readFailure_isError "corpus" c3Stream c3Rest (by decide)
      (by decide)⟩

/-! ## Task queue (`worker.go`) -/

namespace Worker

/-- Embedding of `Task` from `worker.go` (namespaced because Lean's core
already has a `Task` type). -/
structure Task where
  PackagePath : String
  Target : String
deriving DecidableEq, Repr

/-- Embedding of `TaskQueue` from `worker.go`.  The mutex only serializes
access; the sequential state is the task slice. -/
structure TaskQueue where
  tasks : List Task
deriving DecidableEq, Repr

/-- `NewTaskQueue` returns an empty, initialized queue. -/
def NewTaskQueue : TaskQueue := ⟨[]⟩

/-- `Enqueue` appends a task to the back of the queue. -/
def TaskQueue.Enqueue (q : TaskQueue) (t : Task) : TaskQueue :=
  ⟨q.tasks ++ [t]⟩

/-- `Length` returns the current number of tasks. -/
def TaskQueue.Length (q : TaskQueue) : Nat := q.tasks.length

/-- `Dequeue` removes and returns the front task; on the empty queue it
returns the `Task{}` zero value, `false`, and the unchanged queue. -/
def TaskQueue.Dequeue (q : TaskQueue) : Task × Bool × TaskQueue :=
  match q.tasks with
  | [] => (⟨"", ""⟩, false, q)
  | t :: rest => (t, true, ⟨rest⟩)

/-- `k` consecutive `Dequeue` operations, collecting the
`(task, present)` results. -/
def dequeueN : Nat → TaskQueue → List (Task × Bool) × TaskQueue
  | 0, q => ([], q)
  | n + 1, q =>
      let r := q.Dequeue
      let rest := dequeueN n r.2.2
      ((r.1, r.2.1) :: rest.1, rest.2)

theorem foldl_enqueue (es : List Task) :
    ∀ q : TaskQueue, (es.foldl TaskQueue.Enqueue q).tasks = q.tasks ++ es := by
  induction es with
  | nil => intro q; simp
  | cons e es ih =>
      intro q
      simp [List.foldl_cons, ih, TaskQueue.Enqueue]

theorem dequeueN_all (es : List Task) :
    dequeueN es.length ⟨es⟩ = (es.map (fun t => (t, true)), ⟨[]⟩) := by
  induction es with
  | nil => rfl
  | cons e es ih =>
      simp [dequeueN, TaskQueue.Dequeue, ih]

theorem dequeueN_drop (k : Nat) :
    ∀ es : List Task, k ≤ es.length → (dequeueN k ⟨es⟩).2 = ⟨es.drop k⟩ := by
  induction k with
  | zero => intro es _; rfl
  | succ n ih =>
      intro es hk
      match es with
      | [] => simp at hk
      | e :: es =>
          simp only [dequeueN, TaskQueue.Dequeue]
          simpa [dequeueN, TaskQueue.Dequeue] using
            ih es (by simpa using Nat.le_of_succ_le_succ hk)

/-- **C7**: enqueuing `es` on the empty queue and then dequeuing yields
`es` in FIFO order, each with `present = true`; after `k ≤ |es|` dequeues
the length is `|es| - k` (enqueued minus dequeued); and `Dequeue` on the
empty queue returns the zero task with `present = false` and leaves the
queue unchanged. -/
theorem c7_taskQueue_fifo (es : List Task) (k : Nat) (hk : k ≤ es.length) :
    (dequeueN es.length (es.foldl TaskQueue.Enqueue NewTaskQueue)).1 =
      es.map (fun t => (t, true)) ∧
    (dequeueN k (es.foldl TaskQueue.Enqueue NewTaskQueue)).2.Length =
      es.length - k ∧
    NewTaskQueue.Dequeue = (⟨"", ""⟩, false, NewTaskQueue) := by
  have hq : es.foldl TaskQueue.Enqueue NewTaskQueue = ⟨es⟩ := by
    have h := foldl_enqueue es NewTaskQueue
    cases hfold : es.foldl TaskQueue.Enqueue NewTaskQueue with
    | mk ts =>
        rw [hfold] at h
        simp [NewTaskQueue] at h
        simp [h]
  refine ⟨?_, ?_, rfl⟩
  · rw [hq, dequeueN_all]
  · rw [hq, dequeueN_drop k es hk]
    simp [TaskQueue.Length]

/-- Witness for **C7** at a concrete two-task queue with one dequeue. -/
theorem c7_taskQueue_fifo_witness :
    (1 ≤ ([⟨"p", "FuzzA"⟩, ⟨"q", "FuzzB"⟩] : List Task).length) ∧
    (dequeueN 2 ([⟨"p", "FuzzA"⟩, ⟨"q", "FuzzB"⟩].foldl
        TaskQueue.Enqueue NewTaskQueue)).1 =
      [(⟨"p", "FuzzA"⟩, true), (⟨"q", "FuzzB"⟩, true)] ∧
    (dequeueN 1 ([⟨"p", "FuzzA"⟩, ⟨"q", "FuzzB"⟩].foldl
        TaskQueue.Enqueue NewTaskQueue)).2.Length = 1 :=
  ⟨by decide,
    (c7_taskQueue_fifo [⟨"p", "FuzzA"⟩, ⟨"q", "FuzzB"⟩] 1 (by decide)).1,
    (c7_taskQueue_fifo [⟨"p", "FuzzA"⟩, ⟨"q", "FuzzB"⟩] 1 (by decide)).2.1⟩

end Worker

/-! ## Report store (`report.go`: `addToMaster`, `updateTarget`) -/

/-- Embedding of `TargetState` from `report.go`. -/
structure TargetState where
  PkgPath : String
  Target : String
deriving DecidableEq, Repr

/-- Embedding of `MasterEntry` from `report.go` (the fields rendered into
`index.html`). -/
structure MasterEntry where
  PkgPath : String
  Target : String
  LinkFile : String
deriving DecidableEq, Repr

/-- The duplicate test of the merge loop in `addToMaster`
(`new.PkgPath == exist.PkgPath && new.Target == exist.Target`). -/
def stateEq (a b : TargetState) : Bool :=
  a.PkgPath == b.PkgPath && a.Target == b.Target

theorem stateEq_iff (a b : TargetState) : stateEq a b = true ↔ a = b := by
  cases a; cases b
  simp [stateEq]

/-- The merge loop of `addToMaster`: start from the existing list and
append each new state that does not already occur in the existing list.
A pair duplicated inside `newState` itself is not filtered: the Go loop
checks only against `existState`. -/
def mergeStates (existState newState : List TargetState) :
    List TargetState :=
  existState ++ newState.filter (fun n => !(existState.any (stateEq n)))

/-- Go's byte-lexicographic string `<` at the character level (characters
and bytes order identically on the ASCII package and target names). -/
def goStrLtChars : List Char → List Char → Bool
  | [], [] => false
  | [], _ :: _ => true
  | _ :: _, [] => false
  | a :: as, b :: bs =>
      if a < b then true
      else if b < a then false
      else goStrLtChars as bs

/-- Go's string `<`. -/
def goStrLt (a b : String) : Bool := goStrLtChars a.data b.data

theorem goStrLtChars_asymm : ∀ xs ys, goStrLtChars xs ys = true →
    goStrLtChars ys xs = false
  | [], [] => by simp [goStrLtChars]
  | [], _ :: _ => by simp [goStrLtChars]
  | _ :: _, [] => by simp [goStrLtChars]
  | x :: xs, y :: ys => by
      simp only [goStrLtChars]
      rcases lt_trichotomy x y with h | h | h
      · intro _
        rw [if_neg (lt_asymm h), if_pos h]
      · subst h
        simp only [lt_irrefl, if_false]
        exact goStrLtChars_asymm xs ys
      · rw [if_neg (lt_asymm h), if_pos h]
        intro hfalse
        exact absurd hfalse (by simp)
  termination_by xs _ => xs.length

theorem goStrLtChars_conn : ∀ xs ys, goStrLtChars xs ys = false →
    goStrLtChars ys xs = false → xs = ys
  | [], [] => by simp
  | [], _ :: _ => by simp [goStrLtChars]
  | _ :: _, [] => by simp [goStrLtChars]
  | x :: xs, y :: ys => by
      simp only [goStrLtChars]
      rcases lt_trichotomy x y with h | h | h
      · rw [if_pos h]
        intro hfalse
        exact absurd hfalse (by simp)
      · subst h
        simp only [lt_irrefl, if_false]
        intro h1 h2
        rw [goStrLtChars_conn xs ys h1 h2]
      · intro _ h2
        rw [if_pos h] at h2
        exact absurd h2 (by simp)
  termination_by xs _ => xs.length

theorem goStrLtChars_notLt_trans : ∀ xs ys zs,
    goStrLtChars ys xs = false → goStrLtChars zs ys = false →
    goStrLtChars zs xs = false
  | [], _, [] => fun _ _ => rfl
  | [], _, _ :: _ => fun _ _ => rfl
  | _ :: _, [], _ => fun h1 _ => absurd h1 (by simp [goStrLtChars])
  | _ :: _, _ :: _, [] => fun _ h2 => absurd h2 (by simp [goStrLtChars])
  | x :: xs, y :: ys, z :: zs => by
      intro h1 h2
      simp only [goStrLtChars] at h1 h2 ⊢
      rcases lt_trichotomy y x with hyx | hyx | hyx
      · rw [if_pos hyx] at h1
        exact absurd h1 (by simp)
      · subst hyx
        rw [if_neg (lt_irrefl y), if_neg (lt_irrefl y)] at h1
        rcases lt_trichotomy z y with hzy | hzy | hzy
        · rw [if_pos hzy] at h2
          exact absurd h2 (by simp)
        · subst hzy
          rw [if_neg (lt_irrefl z), if_neg (lt_irrefl z)] at h2
          rw [if_neg (lt_irrefl z), if_neg (lt_irrefl z)]
          exact goStrLtChars_notLt_trans xs ys zs h1 h2
        · rw [if_neg (lt_asymm hzy), if_pos hzy]
      · rcases lt_trichotomy z y with hzy | hzy | hzy
        · rw [if_pos hzy] at h2
          exact absurd h2 (by simp)
        · subst hzy
          rw [if_neg (lt_asymm hyx), if_pos hyx]
        · have hx : x < z := lt_trans hyx hzy
          rw [if_neg (lt_asymm hx), if_pos hx]
  termination_by xs _ _ => xs.length

theorem goStrLt_asymm {a b : String} (h : goStrLt a b = true) :
    goStrLt b a = false := goStrLtChars_asymm a.data b.data h

theorem goStrLt_conn {a b : String} (h1 : goStrLt a b = false)
    (h2 : goStrLt b a = false) : a = b := by
  have hd := goStrLtChars_conn a.data b.data h1 h2
  cases a; cases b
  exact congrArg String.mk hd

theorem goStrLt_notLt_trans {a b c : String} (h1 : goStrLt b a = false)
    (h2 : goStrLt c b = false) : goStrLt c a = false :=
  goStrLtChars_notLt_trans a.data b.data c.data h1 h2

theorem beqStr_not_true {x y : String} (h : x ≠ y) :
    ¬((x == y) = true) := fun hb => h (beq_iff_eq.mp hb)

/-- The `sort.Slice` comparator of `addToMaster`, transcribed from Go:
targets compare when the packages are equal, packages otherwise. -/
def stateLess (a b : TargetState) : Bool :=
  if a.PkgPath == b.PkgPath then goStrLt a.Target b.Target
  else goStrLt a.PkgPath b.PkgPath

/-- The sortedness relation established by `sort.Slice`: a later element
is never strictly below an earlier one; on `(package, target)` keys this
is the lexicographic `≤`. -/
def stateLe (a b : TargetState) : Prop := stateLess b a = false

instance : DecidableRel stateLe := fun a b =>
  inferInstanceAs (Decidable (_ = false))

theorem stateLess_asymm {a b : TargetState} (h : stateLess a b = true) :
    stateLess b a = false := by
  unfold stateLess at h ⊢
  by_cases hpq : a.PkgPath = b.PkgPath
  · rw [if_pos (beq_iff_eq.mpr hpq)] at h
    rw [if_pos (beq_iff_eq.mpr hpq.symm)]
    exact goStrLt_asymm h
  · rw [if_neg (beqStr_not_true hpq)] at h
    rw [if_neg (beqStr_not_true (fun e => hpq e.symm))]
    exact goStrLt_asymm h

theorem stateLess_conn {a b : TargetState} (h1 : stateLess a b = false)
    (h2 : stateLess b a = false) : a = b := by
  unfold stateLess at h1 h2
  by_cases hpq : a.PkgPath = b.PkgPath
  · rw [if_pos (beq_iff_eq.mpr hpq)] at h1
    rw [if_pos (beq_iff_eq.mpr hpq.symm)] at h2
    have ht := goStrLt_conn h1 h2
    cases a; cases b
    simp only [TargetState.mk.injEq]
    exact ⟨hpq, ht⟩
  · rw [if_neg (beqStr_not_true hpq)] at h1
    rw [if_neg (beqStr_not_true (fun e => hpq e.symm))] at h2
    exact absurd (goStrLt_conn h1 h2) hpq

instance : IsTotal TargetState stateLe where
  total a b := by
    unfold stateLe
    cases hv : stateLess b a with
    | false => exact Or.inl rfl
    | true => exact Or.inr (stateLess_asymm hv)

instance : IsTrans TargetState stateLe where
  trans a b c hab hbc := by
    unfold stateLe stateLess at hab hbc ⊢
    by_cases h1 : b.PkgPath = a.PkgPath
    · by_cases h2 : c.PkgPath = b.PkgPath
      · rw [if_pos (beq_iff_eq.mpr h1)] at hab
        rw [if_pos (beq_iff_eq.mpr h2)] at hbc
        rw [if_pos (beq_iff_eq.mpr (h2.trans h1))]
        exact goStrLt_notLt_trans hab hbc
      · rw [if_neg (beqStr_not_true h2)] at hbc
        have hca : c.PkgPath ≠ a.PkgPath := fun e => h2 (e.trans h1.symm)
        rw [if_neg (beqStr_not_true hca), ← h1]
        exact hbc
    · by_cases h2 : c.PkgPath = b.PkgPath
      · rw [if_neg (beqStr_not_true h1)] at hab
        have hca : c.PkgPath ≠ a.PkgPath := fun e => h1 (h2.symm.trans e)
        rw [if_neg (beqStr_not_true hca), h2]
        exact hab
      · rw [if_neg (beqStr_not_true h1)] at hab
        rw [if_neg (beqStr_not_true h2)] at hbc
        by_cases h3 : c.PkgPath = a.PkgPath
        · rw [h3] at hbc
          exact absurd (goStrLt_conn hbc hab).symm h1
        · rw [if_neg (beqStr_not_true h3)]
          exact goStrLt_notLt_trans hab hbc

/-- Embedding of the state-list computation of `addToMaster`: merge, then
sort with the `sort.Slice` comparator.  `sort.Slice` yields some
permutation ordered by the comparator; two states that compare equivalent
are equal records, so that sorted permutation is unique and equals
insertion sort. -/
def addToMasterStates (existState newState : List TargetState) :
    List TargetState :=
  List.insertionSort stateLe (mergeStates existState newState)

/-- The index entries rendered by `addToMaster` into `index.html`
(`linkFile = targets/<pkg>/<target>.html`), one per state, in order. -/
def masterEntries (states : List TargetState) : List MasterEntry :=
  states.map fun s =>
    ⟨s.PkgPath, s.Target,
      joinPath "targets" (joinPath s.PkgPath (s.Target ++ ".html"))⟩

/-- Embedding of `addToMaster`'s outputs: the saved state list and the
rendered index entries. -/
def addToMaster (existState newState : List TargetState) :
    List TargetState × List MasterEntry :=
  let states := addToMasterStates existState newState
  (states, masterEntries states)

/-- **C8 counterexample**: when the newly discovered list itself contains
the same `(package, target)` twice and the pair is not in the existing
list, the merge keeps both copies, so the saved list is not
duplicate-free: the claim fails for this pair of master-state lists. -/
theorem c8_counterexample :
    (addToMaster [] [⟨"pkga", "FuzzA"⟩, ⟨"pkga", "FuzzA"⟩]).1 =
      [⟨"pkga", "FuzzA"⟩, ⟨"pkga", "FuzzA"⟩] ∧
    ¬ (addToMaster [] [⟨"pkga", "FuzzA"⟩, ⟨"pkga", "FuzzA"⟩]).1.Nodup := by
  constructor
  · decide
  · decide

theorem any_stateEq_iff (l : List TargetState) (s : TargetState) :
    l.any (stateEq s) = true ↔ s ∈ l := by
  rw [List.any_eq_true]
  constructor
  · rintro ⟨x, hx, hsx⟩
    have h := (stateEq_iff s x).mp hsx
    subst h
    exact hx
  · intro hs
    exact ⟨s, hs, (stateEq_iff s s).mpr rfl⟩

theorem mem_mergeStates (exist new : List TargetState) (s : TargetState) :
    s ∈ mergeStates exist new ↔ s ∈ exist ∨ s ∈ new := by
  unfold mergeStates
  rw [List.mem_append]
  constructor
  · rintro (h | h)
    · exact Or.inl h
    · exact Or.inr (List.mem_of_mem_filter h)
  · rintro (h | h)
    · exact Or.inl h
    · by_cases he : s ∈ exist
      · exact Or.inl he
      · refine Or.inr (List.mem_filter.mpr ⟨h, ?_⟩)
        have hfa : exist.any (stateEq s) = false := by
          cases hval : exist.any (stateEq s)
          · rfl
          · exact absurd ((any_stateEq_iff exist s).mp hval) he
        rw [hfa]
        rfl

theorem mergeStates_nodup {exist new : List TargetState}
    (h1 : exist.Nodup) (h2 : new.Nodup) : (mergeStates exist new).Nodup := by
  unfold mergeStates
  refine List.Nodup.append h1 (h2.filter _) ?_
  intro s hse hsf
  have hcond := (List.mem_filter.mp hsf).2
  have hany : exist.any (stateEq s) = true := (any_stateEq_iff exist s).mpr hse
  rw [hany] at hcond
  simp at hcond

/-- **C8 amended**: for duplicate-free input lists, `addToMaster` saves a
list sorted by `(package, target)` with duplicates removed whose members
are exactly the union of the two lists, and renders the index entries
from that same saved list.  (Without the duplicate-free hypotheses only
sortedness holds: a duplicate inside one input survives the merge, see
the counterexample.) -/
theorem c8_amended_addToMaster (exist new : List TargetState)
    (h1 : exist.Nodup) (h2 : new.Nodup) :
    (addToMaster exist new).1.Sorted stateLe ∧
    (addToMaster exist new).1.Nodup ∧
    (∀ s, s ∈ (addToMaster exist new).1 ↔ s ∈ exist ∨ s ∈ new) ∧
    (addToMaster exist new).2 = masterEntries (addToMaster exist new).1 := by
  refine ⟨List.sorted_insertionSort _ _, ?_, ?_, rfl⟩
  · exact ((List.perm_insertionSort stateLe _).nodup_iff).mpr
      (mergeStates_nodup h1 h2)
  · intro s
    exact ((List.perm_insertionSort stateLe
      (mergeStates exist new)).mem_iff).trans (mem_mergeStates exist new s)

/-- Witness for **C8 amended** at concrete one-element lists. -/
theorem c8_amended_addToMaster_witness :
    ([⟨"pkgb", "FuzzB"⟩] : List TargetState).Nodup ∧
    ([⟨"pkga", "FuzzA"⟩] : List TargetState).Nodup ∧
    ((addToMaster [⟨"pkgb", "FuzzB"⟩] [⟨"pkga", "FuzzA"⟩]).1.Sorted stateLe ∧
      (addToMaster [⟨"pkgb", "FuzzB"⟩] [⟨"pkga", "FuzzA"⟩]).1.Nodup ∧
      (∀ s, s ∈ (addToMaster [⟨"pkgb", "FuzzB"⟩] [⟨"pkga", "FuzzA"⟩]).1 ↔
        s ∈ ([⟨"pkgb", "FuzzB"⟩] : List TargetState) ∨
        s ∈ ([⟨"pkga", "FuzzA"⟩] : List TargetState)) ∧
      (addToMaster [⟨"pkgb", "FuzzB"⟩] [⟨"pkga", "FuzzA"⟩]).2 =
        masterEntries (addToMaster [⟨"pkgb", "FuzzB"⟩] [⟨"pkga", "FuzzA"⟩]).1) :=
  ⟨by decide, by decide,
    c8_amended_addToMaster [⟨"pkgb", "FuzzB"⟩] [⟨"pkga", "FuzzA"⟩]
      (by decide) (by decide)⟩

/-- Embedding of `TargetHistory` from `report.go`. -/
structure TargetHistory where
  Date : String
  Coverage : String
  ReportPath : String
deriving DecidableEq, Repr

/-- Embedding of the history update performed by `updateTarget` in
`report.go`: prepend a `{date, coverage, report}` entry only when the
history is empty or the top entry's date differs from the current date;
otherwise return the history unchanged. -/
def updateTarget (history : List TargetHistory)
    (currentDate coverage reportHTMLPath : String) : List TargetHistory :=
  match history with
  | top :: _ =>
      if top.Date = currentDate then history
      else ⟨currentDate, coverage, reportHTMLPath⟩ :: history
  | [] => [⟨currentDate, coverage, reportHTMLPath⟩]

/-- **C9**: the per-target history update is idempotent per day: a second
update on the same date (with any coverage and report path) leaves the
history unchanged, because after any update the top entry carries the
current date and an entry is prepended only when the top entry's date
differs from the current date. -/
theorem c9_history_idempotent (history : List TargetHistory)
    (d c r c' r' : String) :
    updateTarget (updateTarget history d c r) d c' r' =
      updateTarget history d c r ∧
    (updateTarget history d c r).head?.map TargetHistory.Date = some d := by
  cases history with
  | nil => simp [updateTarget]
  | cons top rest =>
      by_cases h : top.Date = d <;> simp [updateTarget, h]

/-! ## Coverage measurement and corpus minimization (`corpus.go`) -/

/-- Outcomes of `os.ReadDir` for the embedding: a listing of entry
names, a not-exist failure, or another error. -/
inductive ReadDirResult where
  | entries (files : List String)
  | notExist
  | otherError (msg : String)
deriving DecidableEq, Repr

/-- Digit run to number, modelling `strconv.Atoi` on a digit string. -/
def digitsToNat (ds : List Char) : Nat :=
  ds.foldl (fun acc c => acc * 10 + (c.toNat - 48)) 0

/-- The literal part of the coverage regex in `MeasureCoverage`. -/
def coverageLit : List Char := "initial coverage bits:".data

/-- Completes a match of `initial coverage bits:\s+([0-9]+)\n` after one
occurrence of the literal: maximal nonempty `\s+`, maximal nonempty digit
run, then a newline. -/
def matchCoverageAt (cs : List Char) : Option Nat :=
  let ws := cs.takeWhile goIsSpace
  if ws.isEmpty then none
  else
    let rest := cs.drop ws.length
    let ds := rest.takeWhile goIsDigit
    if ds.isEmpty then none
    else
      match rest.drop ds.length with
      | '\n' :: _ => some (digitsToNat ds)
      | _ => none

/-- Leftmost match of the coverage regex over the engine output. -/
def findCoverageMatch : List Char → Option Nat
  | [] => none
  | c :: rest =>
      match
        (if coverageLit.isPrefixOf (c :: rest) then
          matchCoverageAt ((c :: rest).drop coverageLit.length)
        else none) with
      | some n => some n
      | none => findCoverageMatch rest

/-- Embedding of the output parsing of `MeasureCoverage`: the first
`initial coverage bits: <N>` group in the fuzz engine output. -/
def parseInitialCoverage (output : String) : Option Nat :=
  findCoverageMatch output.data

/-- Embedding of `MeasureCoverage` from `corpus.go`.  `readDir` models
`os.ReadDir`; `engine` models the `runFuzzTest` invocation, mapping the
iteration count `-fuzztime=<n>x` to the combined output or an execution
error.  The second component records the engine invocations performed. -/
def MeasureCoverage (readDir : String → ReadDirResult)
    (engine : Int → Except String String)
    (corpusDir target : String) (fuzzAddInputs : Int) :
    Except String Nat × List Int :=
  match readDir (joinPath corpusDir target) with
  | .notExist => (.ok 0, [])
  | .otherError e => (.error ("reading corpus dir: " ++ e), [])
  | .entries files =>
      let fuzzIterations := fuzzAddInputs + (files.length : Int)
      match engine fuzzIterations with
      | .error e => (.error ("go test failed: " ++ e), [fuzzIterations])
      | .ok output =>
          match parseInitialCoverage output with
          | none =>
              (.error "coverage bits not found in output", [fuzzIterations])
          | some n => (.ok n, [fuzzIterations])

/-- **C10**: when the target's corpus subdirectory `corpusDir/<target>`
does not exist, `MeasureCoverage` returns coverage 0 and no error, and
the fuzz engine is not executed at all. -/
theorem c10_measureCoverage_missingDir (readDir : String → ReadDirResult)
    (engine : Int → Except String String) (corpusDir target : String)
    (adds : Int)
    (h : readDir (joinPath corpusDir target) = .notExist) :
    MeasureCoverage readDir engine corpusDir target adds = (.ok 0, []) := by
  simp [MeasureCoverage, h]

/-- Witness for **C10** with a filesystem in which no directory exists
and an engine that would fail if it were ever invoked. -/
theorem c10_measureCoverage_missingDir_witness :
    ((fun _ : String => ReadDirResult.notExist) (joinPath "corpus" "FuzzFoo")
      = ReadDirResult.notExist) ∧
    MeasureCoverage (fun _ => ReadDirResult.notExist)
      (fun _ => .error "engine must not run") "corpus" "FuzzFoo" 3 =
      (.ok 0, []) :=
  ⟨rfl, c10_measureCoverage_missingDir (fun _ => ReadDirResult.notExist)
    (fun _ => .error "engine must not run") "corpus" "FuzzFoo" 3 rfl⟩

/-- File name and size, as collected by `MinimizeCorpus` for the size
sort (`Size` is a non-negative `int64` file size). -/
structure fileInfo where
  Name : String
  Size : Nat
deriving DecidableEq, Repr

/-- State of the minimization loop: the files currently in the cache
corpus (in copy order), the best coverage seen, the removed-file count,
the files that triggered the nondeterminism warning, and the files
deleted from the source corpus. -/
structure MinimizeState where
  cache : List String
  best : Nat
  removed : Nat
  warned : List String
  srcDeleted : List String
deriving DecidableEq, Repr

/-- One iteration of the `MinimizeCorpus` loop, transcribed from
`corpus.go`: copy the file into the cache corpus, measure coverage
there (`cov` gives the engine's coverage for the cache contents on the
success path), keep the file only when coverage strictly improves,
otherwise warn when coverage strictly decreased and remove the file from
both the source corpus and the cache. -/
def minimizeStep (cov : List String → Nat) (st : MinimizeState)
    (file : fileInfo) : MinimizeState :=
  let cache' := st.cache ++ [file.Name]
  let newCoverage := cov cache'
  if newCoverage > st.best then
    { st with cache := cache', best := newCoverage }
  else
    { cache := st.cache
      best := st.best
      removed := st.removed + 1
      warned := st.warned ++ (if newCoverage < st.best then [file.Name] else [])
      srcDeleted := st.srcDeleted ++ [file.Name] }

/-- Embedding of the per-file loop of `MinimizeCorpus` over the
size-sorted file list, starting from the empty cache and `best = 0`. -/
def MinimizeCorpus (cov : List String → Nat) (files : List fileInfo) :
    MinimizeState :=
  files.foldl (minimizeStep cov) ⟨[], 0, 0, [], []⟩

/-- The sort postcondition of the size sort in `MinimizeCorpus`: the
processing order is a permutation of the directory listing that is
non-decreasing in size.  The Go comparator compares sizes only and
`sort.Slice` is not stable, so any such permutation may be produced. -/
def validSizeSort (entries outcome : List fileInfo) : Prop :=
  entries.Perm outcome ∧ outcome.Sorted (fun a b => a.Size ≤ b.Size)

instance (entries outcome : List fileInfo) :
    Decidable (validSizeSort entries outcome) := by
  unfold validSizeSort
  exact instDecidableAnd

/-- The ordering the claim asserts (spec-side definition): size
ascending, ties broken by filename ascending. -/
def sizeNameLe (a b : fileInfo) : Prop :=
  a.Size < b.Size ∨ (a.Size = b.Size ∧ goStrLt b.Name a.Name = false)

instance : DecidableRel sizeNameLe := fun a b =>
  inferInstanceAs (Decidable (_ ∨ _))

/-- The claim's asserted processing order. -/
def sizeNameSort (entries : List fileInfo) : List fileInfo :=
  List.insertionSort sizeNameLe entries

/-- **C5 counterexample**: with two tied-size corpus files, the order
that breaks the size tie against the filename order is a valid outcome of
the code's size-only unstable sort, and it differs from the claim's
size-then-filename order, so the claimed processing order is not what the
code guarantees. -/
theorem c5_counterexample :
    validSizeSort [⟨"a", 1⟩, ⟨"b", 1⟩] [⟨"b", 1⟩, ⟨"a", 1⟩] ∧
    [fileInfo.mk "b" 1, fileInfo.mk "a" 1] ≠
      sizeNameSort [⟨"a", 1⟩, ⟨"b", 1⟩] := by
  constructor
  · constructor
    · decide
    · decide
  · decide

/-- Spec-side restatement of the amended minimization behavior, written
from the amended claim's words: walk the files in order; a file is kept
exactly when measuring the scratch corpus extended with it strictly
exceeds the best coverage so far; otherwise it is deleted from both the
scratch and the source corpus, with a nondeterminism warning exactly when
the measured coverage strictly decreased. -/
def minimizeSpec (cov : List String → Nat) (kept : List String)
    (best : Nat) : List fileInfo → MinimizeState
  | [] => ⟨kept, best, 0, [], []⟩
  | f :: fs =>
      let measured := cov (kept ++ [f.Name])
      if best < measured then
        minimizeSpec cov (kept ++ [f.Name]) measured fs
      else
        let st := minimizeSpec cov kept best fs
        { st with
            removed := st.removed + 1
            warned := (if measured < best then [f.Name] else []) ++ st.warned
            srcDeleted := f.Name :: st.srcDeleted }

theorem minimize_foldl_spec (cov : List String → Nat) :
    ∀ (files : List fileInfo) (kept : List String) (best r : Nat)
      (w d : List String),
      files.foldl (minimizeStep cov) ⟨kept, best, r, w, d⟩ =
        ⟨(minimizeSpec cov kept best files).cache,
         (minimizeSpec cov kept best files).best,
         r + (minimizeSpec cov kept best files).removed,
         w ++ (minimizeSpec cov kept best files).warned,
         d ++ (minimizeSpec cov kept best files).srcDeleted⟩ := by
  intro files
  induction files with
  | nil =>
      intro kept best r w d
      simp [minimizeSpec]
  | cons f fs ih =>
      intro kept best r w d
      simp only [List.foldl_cons, minimizeStep]
      by_cases h : cov (kept ++ [f.Name]) > best
      · rw [if_pos h]
        rw [ih (kept ++ [f.Name]) (cov (kept ++ [f.Name])) r w d]
        simp only [minimizeSpec]
        rw [if_pos h]
      · rw [if_neg h]
        rw [ih kept best (r + 1)
          (w ++ (if cov (kept ++ [f.Name]) < best then [f.Name] else []))
          (d ++ [f.Name])]
        simp only [minimizeSpec]
        rw [if_neg h]
        simp only [MinimizeState.mk.injEq, true_and]
        refine ⟨by omega, by simp, by simp⟩

theorem minimize_removed_count (cov : List String → Nat) :
    ∀ (files : List fileInfo) (st : MinimizeState),
      (files.foldl (minimizeStep cov) st).removed +
        (files.foldl (minimizeStep cov) st).cache.length =
      st.removed + st.cache.length + files.length := by
  intro files
  induction files with
  | nil => intro st; simp
  | cons f fs ih =>
      intro st
      simp only [List.foldl_cons]
      rw [ih (minimizeStep cov st f)]
      unfold minimizeStep
      by_cases h : cov (st.cache ++ [f.Name]) > st.best
      · rw [if_pos h]
        simp
        omega
      · rw [if_neg h]
        simp
        omega

theorem minimize_best_eq_cov (cov : List String → Nat) :
    ∀ (files : List fileInfo) (st : MinimizeState),
      (st.cache = [] → st.best = 0) →
      (st.cache ≠ [] → st.best = cov st.cache) →
      (((files.foldl (minimizeStep cov) st).cache = [] →
        (files.foldl (minimizeStep cov) st).best = 0) ∧
       ((files.foldl (minimizeStep cov) st).cache ≠ [] →
        (files.foldl (minimizeStep cov) st).best =
          cov (files.foldl (minimizeStep cov) st).cache)) := by
  intro files
  induction files with
  | nil =>
      intro st h0 h1
      exact ⟨h0, h1⟩
  | cons f fs ih =>
      intro st h0 h1
      simp only [List.foldl_cons]
      unfold minimizeStep
      by_cases h : cov (st.cache ++ [f.Name]) > st.best
      · rw [if_pos h]
        refine ih _ ?_ ?_
        · intro hc
          simp at hc
        · intro _
          rfl
      · rw [if_neg h]
        exact ih _ h0 h1

/-- **C5 amended**: for every coverage oracle and every processing order
that the code's size-only unstable sort can produce from the directory
listing (a size-non-decreasing permutation; the tie order is
unspecified), the minimization loop behaves as the amended claim states:
it equals the spec-worded greedy walk (keep a file exactly on strict
coverage improvement, delete it from both the scratch and the source
corpus otherwise, warn exactly on strict decrease), the kept and removed
files partition the processed files, and the final best coverage is the
coverage of the kept scratch corpus (0 when nothing was kept). -/
theorem c5_amended_minimize (entries files : List fileInfo)
    (cov : List String → Nat) (hsort : validSizeSort entries files) :
    MinimizeCorpus cov files = minimizeSpec cov [] 0 files ∧
    (MinimizeCorpus cov files).removed +
      (MinimizeCorpus cov files).cache.length = files.length ∧
    ((MinimizeCorpus cov files).cache = [] →
      (MinimizeCorpus cov files).best = 0) ∧
    ((MinimizeCorpus cov files).cache ≠ [] →
      (MinimizeCorpus cov files).best =
        cov (MinimizeCorpus cov files).cache) := by
  refine ⟨?_, ?_, ?_, ?_⟩
  · unfold MinimizeCorpus
    rw [minimize_foldl_spec cov files [] 0 0 [] []]
    simp
  · unfold MinimizeCorpus
    have := minimize_removed_count cov files ⟨[], 0, 0, [], []⟩
    simpa using this
  · exact (minimize_best_eq_cov cov files ⟨[], 0, 0, [], []⟩
      (fun _ => rfl) (fun hc => absurd rfl hc)).1
  · exact (minimize_best_eq_cov cov files ⟨[], 0, 0, [], []⟩
      (fun _ => rfl) (fun hc => absurd rfl hc)).2

/-- Witness for **C5 amended** at a concrete two-file corpus with the
tie-breaking order the unstable sort may produce, and corpus-size
coverage. -/
theorem c5_amended_minimize_witness :
    validSizeSort [⟨"a", 1⟩, ⟨"b", 1⟩] [⟨"b", 1⟩, ⟨"a", 1⟩] ∧
    (MinimizeCorpus (fun l => l.length) [⟨"b", 1⟩, ⟨"a", 1⟩] =
        minimizeSpec (fun l => l.length) [] 0 [⟨"b", 1⟩, ⟨"a", 1⟩] ∧
      (MinimizeCorpus (fun l => l.length) [⟨"b", 1⟩, ⟨"a", 1⟩]).removed +
        (MinimizeCorpus (fun l => l.length)
          [⟨"b", 1⟩, ⟨"a", 1⟩]).cache.length = 2 ∧
      ((MinimizeCorpus (fun l => l.length) [⟨"b", 1⟩, ⟨"a", 1⟩]).cache = [] →
        (MinimizeCorpus (fun l => l.length) [⟨"b", 1⟩, ⟨"a", 1⟩]).best = 0) ∧
      ((MinimizeCorpus (fun l => l.length) [⟨"b", 1⟩, ⟨"a", 1⟩]).cache ≠ [] →
        (MinimizeCorpus (fun l => l.length) [⟨"b", 1⟩, ⟨"a", 1⟩]).best =
          (fun l : List String => l.length)
            (MinimizeCorpus (fun l => l.length)
              [⟨"b", 1⟩, ⟨"a", 1⟩]).cache)) :=
  ⟨⟨by decide, by decide⟩,
    c5_amended_minimize [⟨"a", 1⟩, ⟨"b", 1⟩] [⟨"b", 1⟩, ⟨"a", 1⟩]
      (fun l => l.length) ⟨by decide, by decide⟩⟩

/-! ## Cycle controller (`scheduler.go`) and configuration (`config.go`) -/

/-- Embedding of the `fuzz.iterations` validation in `loadConfig`
(`config.go`): negative iteration counts are rejected, non-negative ones
accepted. -/
def validateIterations (iterations : Int) : Except String Int :=
  if iterations < 0 then
    .error "invalid number of iterations: must be non-negative"
  else .ok iterations

/-- The `Fuzz` options relevant to the cycle controller (`config.go`).
`iterations` is the flag declared as "Number of fuzzing cycles to run
(0 means to run forever)". -/
structure FuzzConfig where
  syncFrequencyNs : Nat
  numWorkers : Nat
  iterations : Int
deriving DecidableEq, Repr

/-- The events the four-way select in `runFuzzingCycles` can settle on
first: the cycle deadline, parent-context cancellation, or the scheduler
finishing (delivering its result on the error channel). -/
inductive CycleSignal where
  | syncTimeout
  | parentCanceled
  | schedulerFinished
deriving DecidableEq, Repr

/-- Per-cycle environment: outcomes of the external effects of one loop
body of `runFuzzingCycles`.  `schedulerResult` is the value the scheduler
goroutine sends on `errChan` (`none` for success). -/
structure CycleOracle where
  cloneErr : Option String
  s3InitErr : Option String
  downloadErr : Option String
  firstSignal : CycleSignal
  schedulerResult : Option String
  uploadErr : Option String
deriving DecidableEq, Repr

/-- Observable effects of one loop body, in program order. -/
inductive CycleEffect where
  | cloneProject
  | downloadCorpusAndReports
  | launchScheduler
  | cancelCycle
  | waitForScheduler
  | uploadCorpusAndReports
deriving DecidableEq, Repr

/-- Outcome of one loop body of `runFuzzingCycles`. -/
inductive CycleOutcome where
  | exitErr (e : String)
  | exitOk
  | nextCycle
deriving DecidableEq, Repr

/-- Embedding of one loop body of `runFuzzingCycles` (`scheduler.go`):
cleanup and clone, hydrate corpus and reports from the object store,
launch the scheduler goroutine, settle on whichever signal fires first,
and upload only on the non-interrupted success paths.
`waitForScheduler` is the blocking receive `<-errChan` issued after
`cancelCycle()`; when the scheduler finishing is itself the first signal
its result arrives with the signal and no separate wait occurs. -/
def runCycle (o : CycleOracle) : List CycleEffect × CycleOutcome :=
  match o.cloneErr with
  | some e => ([.cloneProject], .exitErr e)
  | none =>
  match o.s3InitErr with
  | some e => ([.cloneProject], .exitErr e)
  | none =>
  match o.downloadErr with
  | some e => ([.cloneProject, .downloadCorpusAndReports], .exitErr e)
  | none =>
  let pre : List CycleEffect :=
    [.cloneProject, .downloadCorpusAndReports, .launchScheduler]
  match o.firstSignal with
  | .syncTimeout =>
      match o.schedulerResult with
      | some e => (pre ++ [.cancelCycle, .waitForScheduler], .exitErr e)
      | none =>
          match o.uploadErr with
          | some e =>
              (pre ++ [.cancelCycle, .waitForScheduler,
                .uploadCorpusAndReports], .exitErr e)
          | none =>
              (pre ++ [.cancelCycle, .waitForScheduler,
                .uploadCorpusAndReports], .nextCycle)
  | .parentCanceled =>
      (pre ++ [.cancelCycle, .waitForScheduler],
        match o.schedulerResult with
        | some e => .exitErr e
        | none => .exitOk)
  | .schedulerFinished =>
      match o.schedulerResult with
      | some e => (pre ++ [.cancelCycle], .exitErr e)
      | none =>
          match o.uploadErr with
          | some e =>
              (pre ++ [.cancelCycle, .uploadCorpusAndReports], .exitErr e)
          | none =>
              (pre ++ [.cancelCycle, .uploadCorpusAndReports], .nextCycle)

/-- Embedding of the outer loop of `runFuzzingCycles`: run one cycle per
provided environment until a loop body exits; returns the number of loop
bodies executed and `none` when the loop is still running after every
provided environment has been consumed.  Faithfully to the source, the
loop reads nothing from `cfg` — in particular `cfg.iterations` is never
consulted. -/
def runFuzzingCycles (cfg : FuzzConfig) :
    List CycleOracle → Nat × Option CycleOutcome
  | [] => (0, none)
  | o :: os =>
      match (runCycle o).2 with
      | .nextCycle =>
          let r := runFuzzingCycles cfg os
          (r.1 + 1, r.2)
      | outcome => (1, some outcome)

theorem runFuzzingCycles_cfg_independent (cfg cfg' : FuzzConfig) :
    ∀ os, runFuzzingCycles cfg os = runFuzzingCycles cfg' os := by
  intro os
  induction os with
  | nil => rfl
  | cons o os ih =>
      simp only [runFuzzingCycles]
      rw [ih]

/-- A per-cycle environment in which every effect succeeds and the
scheduler finishes first. -/
def okCycle : CycleOracle :=
  ⟨none, none, none, .schedulerFinished, none, none⟩

/-- **C4** (code bug): `loadConfig` rejects a negative `fuzz.iterations`
and accepts a positive one, but the cycle controller never consults the
configured cap: with `iterations = 1` and three all-success cycle
environments, `runFuzzingCycles` executes all three cycles and is still
running — the outer loop does not terminate after the configured number
of cycles, contradicting the claim and the flag's own description
("Number of fuzzing cycles to run, 0 means to run forever"). -/
theorem c4_iterations_ignored :
    validateIterations (-1) =
      .error "invalid number of iterations: must be non-negative" ∧
    validateIterations 1 = .ok 1 ∧
    runFuzzingCycles ⟨86400000000000, 1, 1⟩ [okCycle, okCycle, okCycle] =
      (3, none) ∧
    (∀ cfg cfg' : FuzzConfig, ∀ os,
      runFuzzingCycles cfg os = runFuzzingCycles cfg' os) :=
  ⟨rfl, rfl, by decide, runFuzzingCycles_cfg_independent⟩

/-- **C6**: when the parent context is canceled during a cycle that has
reached the settle phase, the controller cancels the cycle, then blocks
on the scheduler's result channel (waits for it to drain), and returns —
the upload of corpus and reports never runs for that cycle, and the loop
does not continue to another cycle. -/
theorem c6_parentCancel_noPersist (o : CycleOracle)
    (h1 : o.cloneErr = none) (h2 : o.s3InitErr = none)
    (h3 : o.downloadErr = none) (h4 : o.firstSignal = .parentCanceled) :
    runCycle o =
      ([.cloneProject, .downloadCorpusAndReports, .launchScheduler,
        .cancelCycle, .waitForScheduler],
        match o.schedulerResult with
        | some e => .exitErr e
        | none => .exitOk) ∧
    CycleEffect.uploadCorpusAndReports ∉ (runCycle o).1 ∧
    (runCycle o).2 ≠ .nextCycle := by
  have hr : runCycle o =
      ([.cloneProject, .downloadCorpusAndReports, .launchScheduler,
        .cancelCycle, .waitForScheduler],
        match o.schedulerResult with
        | some e => .exitErr e
        | none => .exitOk) := by
    unfold runCycle
    rw [h1, h2, h3, h4]
    rfl
  refine ⟨hr, ?_, ?_⟩
  · rw [hr]
    simp
  · rw [hr]
    cases o.schedulerResult <;> simp

/-- Witness for **C6** at a concrete parent-canceled environment. -/
theorem c6_parentCancel_noPersist_witness :
    (CycleOracle.mk none none none .parentCanceled none none).cloneErr
      = none ∧
    (runCycle ⟨none, none, none, .parentCanceled, none, none⟩ =
      ([.cloneProject, .downloadCorpusAndReports, .launchScheduler,
        .cancelCycle, .waitForScheduler], .exitOk) ∧
      CycleEffect.uploadCorpusAndReports ∉
        (runCycle ⟨none, none, none, .parentCanceled, none, none⟩).1 ∧
      (runCycle ⟨none, none, none, .parentCanceled, none, none⟩).2 ≠
        .nextCycle) :=
  ⟨rfl, c6_parentCancel_noPersist ⟨none, none, none, .parentCanceled,
    none, none⟩ rfl rfl rfl rfl⟩
